import Mathlib

/-!
Shallow embedding of `src/Projects/2.URLShortener/main.go`.

The Go program keeps a global `urlStore : map[string]string` (short code ↦
long URL) guarded by a single mutex.  `shortenURLHandler` validates the
request, scans the map for an existing mapping of the long URL (dedup),
otherwise generates a random 8-character code and writes it into the map
unconditionally.  `redirectHandler` is a pure read.

The map is modelled as an association list with unique keys (a Go map never
holds a key twice); `mapGet` / `mapSet` are the map index operations and
`findByLong` is the `for short, long := range urlStore` dedup scan.
Randomness is modelled by passing the outcome of `crypto/rand.Read`
explicitly: either the 8 bytes read, or a failure carrying the (zero
initialised, possibly partially written) buffer, exactly the two paths of
`generateShortCode`.  Since every handler invocation holds the mutex for its
whole body, a concurrent execution is an arbitrary sequential interleaving
of whole handler calls, which is what the trace-based statements quantify
over.
-/

namespace URLShortener

/-- The in-memory store `urlStore : map[string]string`, short code ↦ long URL,
as an association list (a Go map never holds a key twice). -/
abbrev Store := List (String × String)

/-- Map lookup `urlStore[k]` returning `none` when the key is absent. -/
def mapGet : Store → String → Option String
  | [], _ => none
  | (k', v) :: rest, k => if k' = k then some v else mapGet rest k

/-- Map assignment `urlStore[k] = v`: overwrite the entry for `k` in place if
present, otherwise append a new entry.  This is the whole of the Go
program's insert — it never fails and never checks for a collision. -/
def mapSet : Store → String → String → Store
  | [], k, v => [(k, v)]
  | (k', v') :: rest, k, v =>
      if k' = k then (k, v) :: rest else (k', v') :: mapSet rest k v

/-- The dedup scan `for short, long := range urlStore { if long == longURL ... }`:
first code whose stored long URL equals `u`. -/
def findByLong : Store → String → Option String
  | [], _ => none
  | (k, v) :: rest, u => if v = u then some k else findByLong rest u

/-- The base64url alphabet used by Go's `base64.URLEncoding`. -/
def b64urlAlphabet : List Char :=
  "ABCDEFGHIJKLMNOPQRSTUVWXYZabcdefghijklmnopqrstuvwxyz0123456789-_".toList

/-- Character for a 6-bit group. -/
def b64Char (n : Nat) : Char := b64urlAlphabet.getD n 'A'

/-- Go's `base64.URLEncoding.EncodeToString` on a byte list (with `=` padding). -/
def base64urlEncode : List Nat → List Char
  | [] => []
  | [b1] => [b64Char (b1 / 4), b64Char (b1 % 4 * 16), '=', '=']
  | [b1, b2] =>
      [b64Char (b1 / 4), b64Char (b1 % 4 * 16 + b2 / 16), b64Char (b2 % 16 * 4), '=']
  | b1 :: b2 :: b3 :: rest =>
      b64Char (b1 / 4) :: b64Char (b1 % 4 * 16 + b2 / 16) ::
        b64Char (b2 % 16 * 4 + b3 / 64) :: b64Char (b3 % 64) :: base64urlEncode rest

/-- The lowercase hex digits used by Go's `fmt.Sprintf "%x"`. -/
def hexAlphabet : List Char := "0123456789abcdef".toList

/-- Character for a nibble. -/
def hexDigit (n : Nat) : Char := hexAlphabet.getD n '0'

/-- Go's `fmt.Sprintf "%x"` over a byte list: two lowercase hex chars per byte. -/
def hexEncode : List Nat → List Char
  | [] => []
  | b :: rest => hexDigit (b / 16) :: hexDigit (b % 16) :: hexEncode rest

/-- Outcome of the `crypto/rand.Read(b)` call inside `generateShortCode`:
either the 8 random bytes read into `b`, or an error, in which case `buf`
is the contents of the zero-initialised buffer `b` at failure time. -/
inductive RandResult where
  | ok (bytes : List Nat)
  | fail (buf : List Nat)
  deriving DecidableEq

/-- `const shortCodeLength = 8`. -/
def shortCodeLength : Nat := 8

/-- `generateShortCode`: base64url-encode the random bytes and truncate to 8
characters; on a randomness failure, fall back to the hex encoding of the
buffer truncated to 8 characters (the code's commented fallback path).
Either way a `String` is returned — there is no error channel. -/
def generateShortCode : RandResult → String
  | .ok bytes => String.mk ((base64urlEncode bytes).take shortCodeLength)
  | .fail buf => String.mk ((hexEncode buf).take shortCodeLength)

/-- Result of one `shortenURLHandler` call, after JSON decoding: either the
400 validation error, or success carrying the generated (or deduplicated)
short code.  The HTTP response wraps the code as
`http://localhost:8080/<code>`; see `shortURLOf`. -/
inductive ShortenOutcome where
  | badRequest (msg : String)
  | ok (shortCode : String)
  deriving DecidableEq

/-- The response body built by the handlers: `http://localhost:8080/<code>`. -/
def shortURLOf (code : String) : String := "http://localhost:8080/" ++ code

/-- Whether a shortening outcome is the success response. -/
def ShortenOutcome.isOk : ShortenOutcome → Bool
  | .ok _ => true
  | .badRequest _ => false

/-- `shortenURLHandler`, from the empty-URL check onward (method check and
JSON decoding are transport glue).  The whole body runs under `mu.Lock`;
the randomness outcome `r` is the argument consumed by the single
`generateShortCode()` call on the insert path. -/
def shortenURLHandler (st : Store) (longURL : String) (r : RandResult) :
    ShortenOutcome × Store :=
  if longURL = "" then (.badRequest "Long URL cannot be empty", st)
  else
    match findByLong st longURL with
    | some short => (.ok short, st)
    | none =>
        let shortCode := generateShortCode r
        (.ok shortCode, mapSet st shortCode longURL)

/-- Result of one `redirectHandler` call: 404, or the 302 redirect to the
stored long URL. -/
inductive RedirectOutcome where
  | notFound
  | redirect (longURL : String)
  deriving DecidableEq

/-- `redirectHandler` on the short code extracted from the path: a read of
`urlStore` under the mutex; the store is returned unchanged to make the
absence of side effects a stated fact. -/
def redirectHandler (st : Store) (shortCode : String) : RedirectOutcome × Store :=
  match mapGet st shortCode with
  | some longURL => (.redirect longURL, st)
  | none => (.notFound, st)

/-- A sequence of `shortenURLHandler` calls for one long URL, one per
randomness outcome in the list; since each call holds the mutex for its
whole body, any concurrent execution of these calls is one such sequence. -/
def shortenMany (st : Store) (longURL : String) :
    List RandResult → List ShortenOutcome × Store
  | [] => ([], st)
  | r :: rs =>
      let step := shortenURLHandler st longURL r
      let rest := shortenMany step.2 longURL rs
      (step.1 :: rest.1, rest.2)

/-- Store keys are pairwise distinct — the invariant a Go map maintains. -/
def KeysNodup (st : Store) : Prop := (st.map Prod.fst).Nodup

/-- Number of records whose stored long URL is `u`. -/
def countValue (st : Store) (u : String) : Nat :=
  (st.filter (fun e => e.2 = u)).length

/-- Store states reachable by the program: the empty initial map, followed by
any sequence of handler calls (`redirectHandler` is read-only, so only
`shortenURLHandler` steps change the state). -/
inductive Reachable : Store → Prop where
  | init : Reachable []
  | shorten (st : Store) (u : String) (r : RandResult) :
      Reachable st → Reachable (shortenURLHandler st u r).2

/-- Eight zero bytes: the buffer contents when `rand.Read` reads zeros, and
also the zero-initialised buffer on the failure path. -/
def zeros8 : List Nat := List.replicate 8 0

example : generateShortCode (.ok zeros8) = "AAAAAAAA" := by decide
example : generateShortCode (.fail zeros8) = "00000000" := by decide
example :
    shortenURLHandler [] "u1" (.ok zeros8) =
      (.ok "AAAAAAAA", [("AAAAAAAA", "u1")]) := by decide

/-- Reading back the key just written yields the value just written. -/
theorem mapGet_mapSet_self (st : Store) (k v : String) :
    mapGet (mapSet st k v) k = some v := by
  induction st with
  | nil => simp [mapSet, mapGet]
  | cons e rest ih =>
      obtain ⟨k', v'⟩ := e
      by_cases h : k' = k
      · subst h; simp [mapSet, mapGet]
      · simp [mapSet, mapGet, h, ih]

/-- Writing one key leaves every other key's value unchanged. -/
theorem mapGet_mapSet_ne (st : Store) (k v k' : String) (h : k' ≠ k) :
    mapGet (mapSet st k v) k' = mapGet st k' := by
  induction st with
  | nil => simp [mapSet, mapGet, Ne.symm h]
  | cons e rest ih =>
      obtain ⟨k₀, v₀⟩ := e
      by_cases hk : k₀ = k
      · subst hk
        simp [mapSet, mapGet, Ne.symm h]
      · simp [mapSet, mapGet, hk, ih]

/-- A write never removes a key: presence of any key is preserved. -/
theorem mapGet_isSome_mapSet (st : Store) (k v k' : String)
    (h : (mapGet st k').isSome) : (mapGet (mapSet st k v) k').isSome := by
  by_cases hk : k' = k
  · subst hk; simp [mapGet_mapSet_self]
  · rwa [mapGet_mapSet_ne st k v k' hk]

/-- A successful dedup scan returns a pair actually stored. -/
theorem findByLong_mem (st : Store) (u c : String)
    (h : findByLong st u = some c) : (c, u) ∈ st := by
  induction st with
  | nil => simp [findByLong] at h
  | cons e rest ih =>
      obtain ⟨k, v⟩ := e
      by_cases hv : v = u
      · subst hv
        simp [findByLong] at h
        simp [h]
      · simp [findByLong, hv] at h
        exact List.mem_cons_of_mem _ (ih h)

/-- A failed dedup scan means no stored record carries that long URL. -/
theorem findByLong_eq_none (st : Store) (u : String)
    (h : findByLong st u = none) : ∀ e ∈ st, e.2 ≠ u := by
  induction st with
  | nil => simp
  | cons e rest ih =>
      obtain ⟨k, v⟩ := e
      by_cases hv : v = u
      · simp [findByLong, hv] at h
      · simp [findByLong, hv] at h
        intro e' he'
        rcases List.mem_cons.mp he' with h1 | h1
        · subst h1; exact hv
        · exact ih h e' h1

/-- With distinct keys, a stored pair is what lookup of its key returns. -/
theorem mapGet_of_mem (st : Store) (c u : String)
    (hn : KeysNodup st) (h : (c, u) ∈ st) : mapGet st c = some u := by
  induction st with
  | nil => simp at h
  | cons e rest ih =>
      obtain ⟨k, v⟩ := e
      rcases List.mem_cons.mp h with h1 | h1
      · rw [Prod.mk.injEq] at h1
        simp [mapGet, h1.1, h1.2]
      · have hk : k ≠ c := by
          intro hkc
          subst hkc
          have : k ∈ rest.map Prod.fst := by
            exact List.mem_map.mpr ⟨(k, u), h1, rfl⟩
          have hn' := (List.nodup_cons.mp hn).1
          exact hn' this
        have hn' : KeysNodup rest := (List.nodup_cons.mp hn).2
        simp [mapGet, hk, ih hn' h1]

/-- After inserting `(c, u)` into a store with no record for `u`, the dedup
scan for `u` finds exactly `c`. -/
theorem findByLong_mapSet_self (st : Store) (c u : String)
    (h : findByLong st u = none) : findByLong (mapSet st c u) u = some c := by
  induction st with
  | nil => simp [mapSet, findByLong]
  | cons e rest ih =>
      obtain ⟨k, v⟩ := e
      by_cases hv : v = u
      · simp [findByLong, hv] at h
      · simp [findByLong, hv] at h
        by_cases hk : k = c
        · subst hk; simp [mapSet, findByLong]
        · simp [mapSet, findByLong, hk, hv, ih h]

/-- A key is stored exactly when looking it up succeeds. -/
theorem mem_keys_iff (st : Store) (x : String) :
    x ∈ st.map Prod.fst ↔ (mapGet st x).isSome := by
  induction st with
  | nil => simp [mapGet]
  | cons e rest ih =>
      obtain ⟨k, v⟩ := e
      by_cases hk : k = x
      · subst hk; simp [mapGet]
      · simp [mapGet, hk, ih, Ne.symm hk]

/-- Every key of the written store is an old key or the written key. -/
theorem keys_mapSet_subset (st : Store) (k v x : String)
    (h : x ∈ (mapSet st k v).map Prod.fst) :
    x ∈ st.map Prod.fst ∨ x = k := by
  by_cases hx : x = k
  · right; exact hx
  · left
    rw [mem_keys_iff] at h ⊢
    rwa [mapGet_mapSet_ne st k v x hx] at h

/-- A map write keeps the keys pairwise distinct. -/
theorem keysNodup_mapSet (st : Store) (k v : String)
    (hn : KeysNodup st) : KeysNodup (mapSet st k v) := by
  induction st with
  | nil => simp [KeysNodup, mapSet]
  | cons e rest ih =>
      obtain ⟨k₀, v₀⟩ := e
      have hhead : k₀ ∉ rest.map Prod.fst := (List.nodup_cons.mp hn).1
      have htail : KeysNodup rest := (List.nodup_cons.mp hn).2
      by_cases hk : k₀ = k
      · subst hk
        have heq : mapSet ((k₀, v₀) :: rest) k₀ v = (k₀, v) :: rest := by
          simp [mapSet]
        rw [heq]
        show (List.map Prod.fst ((k₀, v) :: rest)).Nodup
        rw [List.map_cons, List.nodup_cons]
        exact ⟨hhead, htail⟩
      · have heq : mapSet ((k₀, v₀) :: rest) k v = (k₀, v₀) :: mapSet rest k v := by
          simp [mapSet, hk]
        rw [heq]
        show (List.map Prod.fst ((k₀, v₀) :: mapSet rest k v)).Nodup
        rw [List.map_cons, List.nodup_cons]
        refine ⟨?_, ih htail⟩
        intro hmem
        rcases keys_mapSet_subset rest k v k₀ hmem with h1 | h1
        · exact hhead h1
        · exact hk h1

/-- Equation for the idempotent path: non-empty URL, dedup scan hits. -/
theorem shorten_eq_of_found (st : Store) (u : String) (r : RandResult) (s : String)
    (hu : u ≠ "") (hf : findByLong st u = some s) :
    shortenURLHandler st u r = (.ok s, st) := by
  unfold shortenURLHandler
  rw [if_neg hu, hf]

/-- Equation for the insert path: non-empty URL, dedup scan misses. -/
theorem shorten_eq_of_none (st : Store) (u : String) (r : RandResult)
    (hu : u ≠ "") (hf : findByLong st u = none) :
    shortenURLHandler st u r =
      (.ok (generateShortCode r), mapSet st (generateShortCode r) u) := by
  unfold shortenURLHandler
  rw [if_neg hu, hf]

/-- Inversion: a successful shortening came from the dedup hit or from one
generate-and-insert, and the resulting store is known in either case. -/
theorem shorten_ok_cases (st : Store) (u : String) (r : RandResult) (c : String)
    (h : (shortenURLHandler st u r).1 = .ok c) :
    u ≠ "" ∧ (findByLong st u = some c ∧ (shortenURLHandler st u r).2 = st ∨
      findByLong st u = none ∧ c = generateShortCode r ∧
        (shortenURLHandler st u r).2 = mapSet st c u) := by
  by_cases hu : u = ""
  · subst hu
    simp [shortenURLHandler] at h
  · refine ⟨hu, ?_⟩
    cases hf : findByLong st u with
    | some s =>
        have he := shorten_eq_of_found st u r s hu hf
        rw [he] at h
        simp at h
        left
        subst h
        exact ⟨rfl, by rw [he]⟩
    | none =>
        have he := shorten_eq_of_none st u r hu hf
        rw [he] at h
        simp at h
        right
        refine ⟨rfl, h.symm, ?_⟩
        rw [he, h]

/-- A call after a successful shortening of the same URL returns the same
code, whatever its randomness outcome, and does not change the store. -/
theorem shorten_second (st : Store) (u : String) (r1 r2 : RandResult) (c : String)
    (h : (shortenURLHandler st u r1).1 = .ok c) :
    shortenURLHandler (shortenURLHandler st u r1).2 u r2 =
      (.ok c, (shortenURLHandler st u r1).2) := by
  obtain ⟨hu, hcase⟩ := shorten_ok_cases st u r1 c h
  rcases hcase with ⟨hf, hst⟩ | ⟨hf, hc, hst⟩
  · rw [hst]
    exact shorten_eq_of_found st u r2 c hu hf
  · rw [hst]
    exact shorten_eq_of_found _ u r2 c hu (findByLong_mapSet_self st c u hf)

/-- Iterating calls that all fix the store and return `c` yields `c`
everywhere and the fixed store. -/
theorem shortenMany_fixed (st : Store) (u : String) (c : String)
    (hfix : ∀ r, shortenURLHandler st u r = (.ok c, st)) :
    ∀ rs : List RandResult,
      shortenMany st u rs = (List.replicate rs.length (.ok c), st) := by
  intro rs
  induction rs with
  | nil => rfl
  | cons r rest ih =>
      show ((shortenURLHandler st u r).1 :: (shortenMany (shortenURLHandler st u r).2 u rest).1,
        (shortenMany (shortenURLHandler st u r).2 u rest).2) = _
      rw [hfix r]
      simp only []
      rw [ih, List.length_cons, List.replicate_succ]

/-- A read never changes the store. -/
theorem redirectHandler_snd (st : Store) (code : String) :
    (redirectHandler st code).2 = st := by
  unfold redirectHandler
  cases mapGet st code <;> rfl

/-- A failed dedup scan means the filter by that long URL is empty. -/
theorem filter_value_eq_nil (st : Store) (u : String)
    (h : findByLong st u = none) : st.filter (fun e => e.2 = u) = [] := by
  induction st with
  | nil => rfl
  | cons e rest ih =>
      obtain ⟨k, v⟩ := e
      by_cases hv : v = u
      · simp [findByLong, hv] at h
      · simp [findByLong, hv] at h
        simp [List.filter_cons, hv, ih h]

/-- Inserting `(c, u)` into a store with no record for `u` makes `(c, u)`
the unique record for `u`. -/
theorem filter_mapSet_of_none (st : Store) (c u : String)
    (h : findByLong st u = none) :
    (mapSet st c u).filter (fun e => e.2 = u) = [(c, u)] := by
  induction st with
  | nil => simp [mapSet]
  | cons e rest ih =>
      obtain ⟨k, v⟩ := e
      by_cases hv : v = u
      · simp [findByLong, hv] at h
      · simp [findByLong, hv] at h
        by_cases hk : k = c
        · subst hk
          simp [mapSet, List.filter_cons, hv, filter_value_eq_nil rest u h]
        · simp [mapSet, hk, List.filter_cons, hv, ih h]

/-- Inserting a record for `u` cannot increase the record count of any
other long URL. -/
theorem countValue_mapSet_le (st : Store) (c u w : String) (hw : w ≠ u) :
    countValue (mapSet st c u) w ≤ countValue st w := by
  induction st with
  | nil => simp [mapSet, countValue, List.filter_cons, Ne.symm hw]
  | cons e rest ih =>
      obtain ⟨k, v⟩ := e
      by_cases hk : k = c
      · subst hk
        by_cases hv : v = w
        · simp [mapSet, countValue, List.filter_cons, Ne.symm hw, hv]
        · simp [mapSet, countValue, List.filter_cons, Ne.symm hw, hv]
      · by_cases hv : v = w
        · simp only [countValue] at ih ⊢
          simp [mapSet, hk, List.filter_cons, hv]
          exact ih
        · simp only [countValue] at ih ⊢
          simp [mapSet, hk, List.filter_cons, hv]
          exact ih

/-- Overwriting an existing key keeps the number of records unchanged. -/
theorem length_mapSet_of_isSome (st : Store) (k v : String)
    (h : (mapGet st k).isSome) : (mapSet st k v).length = st.length := by
  induction st with
  | nil => simp [mapGet] at h
  | cons e rest ih =>
      obtain ⟨k₀, v₀⟩ := e
      by_cases hk : k₀ = k
      · subst hk; simp [mapSet]
      · have h' : (mapGet rest k).isSome := by simpa [mapGet, hk] using h
        simp [mapSet, hk, ih h']

/-- Each handler call keeps the keys distinct and keeps at most one record
per long URL. -/
theorem shorten_preserves (st : Store) (u : String) (r : RandResult)
    (h1 : KeysNodup st) (h2 : ∀ w, countValue st w ≤ 1) :
    KeysNodup (shortenURLHandler st u r).2 ∧
      ∀ w, countValue (shortenURLHandler st u r).2 w ≤ 1 := by
  by_cases hu : u = ""
  · subst hu
    exact ⟨h1, h2⟩
  · cases hf : findByLong st u with
    | some s =>
        rw [shorten_eq_of_found st u r s hu hf]
        exact ⟨h1, h2⟩
    | none =>
        rw [shorten_eq_of_none st u r hu hf]
        refine ⟨keysNodup_mapSet st _ u h1, ?_⟩
        intro w
        by_cases hw : w = u
        · subst hw
          show ((mapSet st (generateShortCode r) w).filter (fun e => e.2 = w)).length ≤ 1
          rw [filter_mapSet_of_none st _ w hf]
          exact Nat.le_refl 1
        · exact Nat.le_trans (countValue_mapSet_le st _ u w hw) (h2 w)

/-- Indexing with a default stays in the list or returns the default. -/
theorem getD_mem_or_eq {α : Type} (l : List α) (n : Nat) (d : α) :
    l.getD n d ∈ l ∨ l.getD n d = d := by
  induction l generalizing n with
  | nil => right; rfl
  | cons a rest ih =>
      cases n with
      | zero => left; simp [List.getD]
      | succ m =>
          have heq : (a :: rest).getD (m + 1) d = rest.getD m d := rfl
          rcases ih m with h | h
          · left
            rw [heq]
            exact List.mem_cons_of_mem a h
          · right
            rw [heq, h]

/-- Every hex digit the fallback emits is from the hex alphabet. -/
theorem hexDigit_mem (n : Nat) : hexDigit n ∈ hexAlphabet := by
  show hexAlphabet.getD n '0' ∈ hexAlphabet
  rcases getD_mem_or_eq hexAlphabet n '0' with h | h
  · exact h
  · rw [h]; decide

/-- Every character of a hex encoding is from the hex alphabet. -/
theorem mem_hexEncode (bs : List Nat) (ch : Char) (h : ch ∈ hexEncode bs) :
    ch ∈ hexAlphabet := by
  induction bs with
  | nil => simp [hexEncode] at h
  | cons b rest ih =>
      simp only [hexEncode, List.mem_cons] at h
      rcases h with h | h | h
      · rw [h]; exact hexDigit_mem _
      · rw [h]; exact hexDigit_mem _
      · exact ih h

/-- A hex encoding has two characters per byte. -/
theorem length_hexEncode (bs : List Nat) :
    (hexEncode bs).length = 2 * bs.length := by
  induction bs with
  | nil => rfl
  | cons b rest ih =>
      simp only [hexEncode, List.length_cons, ih]
      omega

/-- Claim C1 (confirmed): round-trip — resolving the code returned by a
successful shortening of a (necessarily non-empty) long URL against the
resulting store redirects to that long URL.  The store is quantified over
all states with distinct keys, the invariant a Go map maintains. -/
theorem roundTrip (st : Store) (u : String) (r : RandResult) (c : String)
    (hn : KeysNodup st) (h : (shortenURLHandler st u r).1 = .ok c) :
    (redirectHandler (shortenURLHandler st u r).2 c).1 = .redirect u := by
  obtain ⟨hu, hcase⟩ := shorten_ok_cases st u r c h
  rcases hcase with ⟨hf, hst⟩ | ⟨hf, hc, hst⟩
  · rw [hst]
    have hget := mapGet_of_mem st c u hn (findByLong_mem st u c hf)
    unfold redirectHandler
    rw [hget]
  · rw [hst]
    unfold redirectHandler
    rw [mapGet_mapSet_self]

/-- Witness for C1 at the empty store, the URL of the spec scenario and an
all-zero randomness draw. -/
theorem roundTrip_witness :
    (redirectHandler (shortenURLHandler [] "https://example.com/a" (.ok zeros8)).2
      "AAAAAAAA").1 = .redirect "https://example.com/a" :=
  roundTrip [] "https://example.com/a" (.ok zeros8) "AAAAAAAA" (by simp [KeysNodup])
    (by decide)

/-- Claim C2 (confirmed): idempotence — after a successful shortening of a
long URL, a second call for the same URL returns the identical code
regardless of its own randomness outcome, and leaves the store exactly as
it was: no new record is created. -/
theorem idempotentShorten (st : Store) (u : String) (r1 r2 : RandResult) (c : String)
    (h : (shortenURLHandler st u r1).1 = .ok c) :
    shortenURLHandler (shortenURLHandler st u r1).2 u r2 =
      (.ok c, (shortenURLHandler st u r1).2) :=
  shorten_second st u r1 r2 c h

/-- Witness for C2: the second call even draws different randomness (the
failure fallback, which alone would produce the code 00000000) and still
returns AAAAAAAA with the store untouched. -/
theorem idempotentShorten_witness :
    shortenURLHandler (shortenURLHandler [] "u1" (.ok zeros8)).2 "u1" (.fail zeros8) =
      (.ok "AAAAAAAA", (shortenURLHandler [] "u1" (.ok zeros8)).2) :=
  idempotentShorten [] "u1" (.ok zeros8) (.fail zeros8) "AAAAAAAA" (by decide)

/-- Claim C3, counterexample: with the code AAAAAAAA already stored for u1,
shortening u2 while the generator emits that same code AAAAAAAA does not
fail with any collision error — the write succeeds, returns the colliding
code, and silently overwrites the existing record (u1 is lost).  The code
has no `CollisionError`, no retry loop and no `ExhaustedRetriesError`. -/
theorem collisionInsert_cex :
    shortenURLHandler [("AAAAAAAA", "u1")] "u2" (.ok zeros8) =
      (.ok "AAAAAAAA", [("AAAAAAAA", "u2")]) := by decide

/-- Claim C3 as amended: the store write is an unconditional overwrite —
when the code is already present, inserting it again succeeds, remaps the
code to the new long URL and keeps the record count unchanged; no error is
ever produced and no retry ever happens. -/
theorem collisionInsert_amended (st : Store) (c u : String)
    (h : (mapGet st c).isSome) :
    mapGet (mapSet st c u) c = some u ∧ (mapSet st c u).length = st.length :=
  ⟨mapGet_mapSet_self st c u, length_mapSet_of_isSome st c u h⟩

/-- Witness for the amended C3. -/
theorem collisionInsert_amended_witness :
    mapGet (mapSet [("AAAAAAAA", "u1")] "AAAAAAAA" "u2") "AAAAAAAA" = some "u2" ∧
    (mapSet [("AAAAAAAA", "u1")] "AAAAAAAA" "u2").length =
      ([("AAAAAAAA", "u1")] : Store).length :=
  collisionInsert_amended [("AAAAAAAA", "u1")] "AAAAAAAA" "u2" (by decide)

/-- Claim C4, counterexample: when the randomness source fails (buffer left
all zero), `generateShortCode` does not propagate any error — it returns
the predictable hex fallback 00000000, and the request completes
successfully, storing that code. -/
theorem randFallback_cex :
    generateShortCode (.fail zeros8) = "00000000" ∧
    shortenURLHandler [] "u1" (.fail zeros8) =
      (.ok "00000000", [("00000000", "u1")]) :=
  ⟨by decide, by decide⟩

/-- Claim C4 as amended: on randomness failure the generator falls back to
the hex encoding of the buffer truncated to 8 characters — it is total (no
error channel at all), still 8 characters long, but drawn from the weaker
16-character hex alphabet instead of the 64-character base64url one. -/
theorem randFallback_amended (buf : List Nat) (h : buf.length = shortCodeLength) :
    (generateShortCode (.fail buf)).length = shortCodeLength ∧
    ∀ ch ∈ (generateShortCode (.fail buf)).toList, ch ∈ hexAlphabet := by
  constructor
  · show (String.mk ((hexEncode buf).take shortCodeLength)).length = shortCodeLength
    have hlen : (String.mk ((hexEncode buf).take shortCodeLength)).length =
        ((hexEncode buf).take shortCodeLength).length := rfl
    rw [hlen, List.length_take, length_hexEncode, h]
    decide
  · intro ch hch
    have hch' : ch ∈ (hexEncode buf).take shortCodeLength := hch
    exact mem_hexEncode buf ch (List.mem_of_mem_take hch')

/-- Witness for the amended C4. -/
theorem randFallback_amended_witness :
    (generateShortCode (.fail zeros8)).length = shortCodeLength :=
  (randFallback_amended zeros8 (by decide)).1

/-- Claim C5, counterexample: a two-step reachable trace in which the pair
(AAAAAAAA, u1) goes present and is then remapped — after shortening u2
while the generator repeats the code AAAAAAAA, the code resolves to u2, so
a (code, longURL) pair did not stay permanent. -/
theorem permanence_cex :
    mapGet (shortenURLHandler [] "u1" (.ok zeros8)).2 "AAAAAAAA" = some "u1" ∧
    Reachable (shortenURLHandler (shortenURLHandler [] "u1" (.ok zeros8)).2
      "u2" (.ok zeros8)).2 ∧
    mapGet (shortenURLHandler (shortenURLHandler [] "u1" (.ok zeros8)).2
      "u2" (.ok zeros8)).2 "AAAAAAAA" = some "u2" := by
  refine ⟨by decide, ?_, by decide⟩
  exact Reachable.shorten _ "u2" (.ok zeros8)
    (Reachable.shorten [] "u1" (.ok zeros8) Reachable.init)

/-- Claim C5 as amended: no operation ever deletes a record — a code once
present stays present through every shortening call, and resolution never
changes the store; only remapping of a present code (by a generator
collision, as the counterexample shows) is possible. -/
theorem permanence_amended (st : Store) (u code : String) (r : RandResult)
    (h : (mapGet st code).isSome) :
    (mapGet (shortenURLHandler st u r).2 code).isSome ∧
    (redirectHandler st code).2 = st := by
  refine ⟨?_, redirectHandler_snd st code⟩
  by_cases hu : u = ""
  · subst hu
    exact h
  · cases hf : findByLong st u with
    | some s =>
        rw [shorten_eq_of_found st u r s hu hf]
        exact h
    | none =>
        rw [shorten_eq_of_none st u r hu hf]
        exact mapGet_isSome_mapSet st _ _ code h

/-- Witness for the amended C5: the stored code survives a colliding
shortening call (though remapped), and a resolve leaves the store as is. -/
theorem permanence_amended_witness :
    (mapGet (shortenURLHandler [("AAAAAAAA", "u1")] "u2" (.ok zeros8)).2
      "AAAAAAAA").isSome ∧
    (redirectHandler [("AAAAAAAA", "u1")] "AAAAAAAA").2 = [("AAAAAAAA", "u1")] :=
  permanence_amended [("AAAAAAAA", "u1")] "u2" "AAAAAAAA" (.ok zeros8) (by decide)

/-- Claim C6, counterexample: a reachable state in which a long URL that was
successfully shortened (u1, which received the code AAAAAAAA) is mapped by
no code at all — the colliding shortening of u2 overwrote its record — so
"each shortened long URL is mapped by exactly one code" fails. -/
theorem dedupInvariant_cex :
    (shortenURLHandler [] "u1" (.ok zeros8)).1 = .ok "AAAAAAAA" ∧
    Reachable (shortenURLHandler (shortenURLHandler [] "u1" (.ok zeros8)).2
      "u2" (.ok zeros8)).2 ∧
    findByLong (shortenURLHandler (shortenURLHandler [] "u1" (.ok zeros8)).2
      "u2" (.ok zeros8)).2 "u1" = none := by
  refine ⟨by decide, ?_, by decide⟩
  exact Reachable.shorten _ "u2" (.ok zeros8)
    (Reachable.shorten [] "u1" (.ok zeros8) Reachable.init)

/-- Claim C6 as amended: in every reachable store state the stored short
codes are pairwise distinct, and every long URL is mapped by at most one
short code (never two; a collision overwrite can drop it to zero, as the
counterexample shows). -/
theorem dedupInvariant_amended (st : Store) (h : Reachable st) :
    KeysNodup st ∧ ∀ u, countValue st u ≤ 1 := by
  induction h with
  | init =>
      refine ⟨by simp [KeysNodup], ?_⟩
      intro u
      exact Nat.zero_le 1
  | shorten st u r hst ih =>
      exact shorten_preserves st u r ih.1 ih.2

/-- Witness for the amended C6 at a one-step reachable state. -/
theorem dedupInvariant_amended_witness :
    KeysNodup (shortenURLHandler [] "u1" (.ok zeros8)).2 ∧
    countValue (shortenURLHandler [] "u1" (.ok zeros8)).2 "u1" ≤ 1 := by
  have h := dedupInvariant_amended (shortenURLHandler [] "u1" (.ok zeros8)).2
    (Reachable.shorten [] "u1" (.ok zeros8) Reachable.init)
  exact ⟨h.1, h.2 "u1"⟩

/-- Claim C7 (confirmed): shortening the empty long URL is rejected with the
400 validation response, the store is unchanged, and no code is generated —
the randomness outcome `r` is universally quantified and the result does
not depend on it. -/
theorem emptyURLValidation (st : Store) (r : RandResult) :
    shortenURLHandler st "" r = (.badRequest "Long URL cannot be empty", st) := rfl

/-- Claim C8 (confirmed): resolving a code absent from the store (one never
returned by a successful shortening — returned codes are always stored and
keys are never removed) fails with the 404 not-found response and leaves
the store unchanged. -/
theorem unknownCodeNotFound (st : Store) (code : String)
    (h : mapGet st code = none) :
    redirectHandler st code = (.notFound, st) := by
  unfold redirectHandler
  rw [h]

/-- Witness for C8 at the spec scenario's unknown code. -/
theorem unknownCodeNotFound_witness :
    redirectHandler [("AAAAAAAA", "https://example.com/a")] "zzzzzzzz" =
      (.notFound, [("AAAAAAAA", "https://example.com/a")]) :=
  unknownCodeNotFound [("AAAAAAAA", "https://example.com/a")] "zzzzzzzz" (by decide)

/-- Claim C9 (confirmed): each handler call holds the one mutex for its whole
dedup-check/generate/insert body, so a concurrent execution of N calls for
the same long URL is some sequential order of them; for every such order,
once the first call succeeds with code `c`, all N calls return exactly
`.ok c`, the store after all N calls is the store after the first one, and
if the URL was absent initially exactly one record was created in total. -/
theorem concurrentDedup (st : Store) (u : String) (r : RandResult)
    (rs : List RandResult) (c : String)
    (h : (shortenURLHandler st u r).1 = .ok c) :
    (shortenMany st u (r :: rs)).1 = List.replicate (rs.length + 1) (.ok c) ∧
    (shortenMany st u (r :: rs)).2 = (shortenURLHandler st u r).2 ∧
    (findByLong st u = none → (shortenMany st u (r :: rs)).2 = mapSet st c u) := by
  have hfix : ∀ r2, shortenURLHandler (shortenURLHandler st u r).2 u r2 =
      (.ok c, (shortenURLHandler st u r).2) := fun r2 => shorten_second st u r r2 c h
  have hmany := shortenMany_fixed (shortenURLHandler st u r).2 u c hfix rs
  have hstep : shortenMany st u (r :: rs) =
      ((shortenURLHandler st u r).1 :: (shortenMany (shortenURLHandler st u r).2 u rs).1,
        (shortenMany (shortenURLHandler st u r).2 u rs).2) := rfl
  refine ⟨?_, ?_, ?_⟩
  · rw [hstep]
    simp only [hmany, h]
    rw [List.replicate_succ]
  · rw [hstep]
    simp only [hmany]
  · intro hf
    obtain ⟨hu, hcase⟩ := shorten_ok_cases st u r c h
    rcases hcase with ⟨hf', _⟩ | ⟨_, _, hst⟩
    · rw [hf] at hf'
      exact Option.noConfusion hf'
    · rw [hstep]
      simp only [hmany]
      exact hst

/-- Witness for C9: three calls for the URL a — the second even with failed
randomness — all return AAAAAAAA and leave the single record created by the
first. -/
theorem concurrentDedup_witness :
    (shortenMany [] "a" [.ok zeros8, .fail zeros8, .ok zeros8]).1 =
      List.replicate 3 (.ok "AAAAAAAA") ∧
    (shortenMany [] "a" [.ok zeros8, .fail zeros8, .ok zeros8]).2 =
      (shortenURLHandler [] "a" (.ok zeros8)).2 ∧
    (findByLong [] "a" = none →
      (shortenMany [] "a" [.ok zeros8, .fail zeros8, .ok zeros8]).2 =
        mapSet [] "AAAAAAAA" "a") :=
  concurrentDedup [] "a" (.ok zeros8) [.fail zeros8, .ok zeros8] "AAAAAAAA" (by decide)

/-- Claim C10 (confirmed): shortening is total on valid input — for every
non-empty long URL, every store state and every randomness outcome
(success or failure), the handler returns a success response carrying a
code; the outcome type of the embedding has only the validation failure
and the success, so there is no path for `ExhaustedRetriesError` or
`InternalError`: the store write never rejects a candidate and generation
never propagates a failure. -/
theorem shortenTotal (st : Store) (u : String) (r : RandResult) (hu : u ≠ "") :
    ((shortenURLHandler st u r).1).isOk = true := by
  cases hf : findByLong st u with
  | some s =>
      rw [shorten_eq_of_found st u r s hu hf]
      rfl
  | none =>
      rw [shorten_eq_of_none st u r hu hf]
      rfl

/-- Witness for C10, on the failed-randomness path with a colliding store. -/
theorem shortenTotal_witness :
    ((shortenURLHandler [("AAAAAAAA", "u1")] "u2" (.fail zeros8)).1).isOk = true :=
  shortenTotal [("AAAAAAAA", "u1")] "u2" (.fail zeros8) (by decide)

end URLShortener
